import Mathlib

/-!
Verification development for the loliOS student-distrib trap-dispatch and
terminal I/O core.  The C sources (terminal.c, keyboard.c, idt.c) are
shallowly embedded: machine integers become `Int`/`Nat` (no overflow occurs
in the ranges exercised), the flat video memory and the keyboard input array
become total functions from indices to byte values, and hardware side
effects (signals raised, EOIs sent, callbacks invoked, register dumps)
become explicit event traces.
-/

namespace LoliOS

/-! ## Terminal screen state (terminal.c / terminal.h) -/

/-- NUM_COLS from terminal.h. -/
def NUM_COLS : Int := 80

/-- NUM_ROWS from terminal.h. -/
def NUM_ROWS : Int := 25

/-- ATTRIB from terminal.h. -/
def ATTRIB : Nat := 7

/--
The cursor and video-memory portion of `terminal_state_t` (terminal.c).
`video` maps a byte offset into video memory to the byte stored there;
cells are two bytes (character, attribute) as on VGA hardware.
-/
structure TermState where
  logical_x : Int
  screen_x : Int
  screen_y : Int
  video : Int → Nat

/-- `terminal_write_char` (terminal.c lines 75-82): store character `c` and
the attribute byte at the current cursor cell; the cursor does not move. -/
def terminal_write_char (t : TermState) (c : Nat) : TermState :=
  let idx : Int := (t.screen_y * NUM_COLS + t.screen_x) * 2
  { t with video := fun i =>
      if i = idx then c else if i = idx + 1 then ATTRIB else t.video i }

/-- `terminal_scroll_down` (terminal.c lines 55-68): memmove the grid up by
one row and memset the exposed bottom row to zero bytes. -/
def terminal_scroll_down (v : Int → Nat) : Int → Nat :=
  let bytes_per_row : Int := NUM_COLS * 2
  let shift_count : Int := NUM_COLS * NUM_ROWS * 2 - bytes_per_row
  fun i =>
    if 0 ≤ i ∧ i < shift_count then v (i + bytes_per_row)
    else if shift_count ≤ i ∧ i < shift_count + bytes_per_row then 0
    else v i

/-- `terminal_putc` (terminal.c lines 85-134). -/
def terminal_putc (t : TermState) (c : Nat) : TermState :=
  if c = 10 ∨ c = 13 then
    let t1 : TermState :=
      { t with logical_x := 0, screen_x := 0, screen_y := t.screen_y + 1 }
    if t1.screen_y ≥ NUM_ROWS then
      { t1 with video := terminal_scroll_down t1.video,
                screen_y := t1.screen_y - 1 }
    else t1
  else if c = 8 then
    if t.logical_x > 0 then
      let t1 : TermState :=
        { t with logical_x := t.logical_x - 1, screen_x := t.screen_x - 1 }
      let t2 : TermState :=
        if t1.screen_x < 0 then
          { t1 with screen_y := t1.screen_y - 1,
                    screen_x := t1.screen_x + NUM_COLS }
        else t1
      terminal_write_char t2 32
    else t
  else
    let t1 := terminal_write_char t c
    let t2 : TermState :=
      { t1 with logical_x := t1.logical_x + 1, screen_x := t1.screen_x + 1 }
    let t3 : TermState :=
      if t2.screen_x ≥ NUM_COLS then
        { t2 with screen_y := t2.screen_y + 1,
                  screen_x := t2.screen_x - NUM_COLS }
      else t2
    if t3.screen_y ≥ NUM_ROWS then
      { t3 with video := terminal_scroll_down t3.video,
                screen_y := t3.screen_y - 1 }
    else t3

/-- The cell-clearing loop of `terminal_clear` (terminal.c lines 147-150):
after `n` iterations, cells `0 ≤ i < n` hold a blank with `ATTRIB`. -/
def clearCells (v : Int → Nat) : Nat → (Int → Nat)
  | 0 => v
  | n + 1 =>
    let vPrev := clearCells v n
    fun i => if i = 2 * (n : Int) then 32
             else if i = 2 * (n : Int) + 1 then ATTRIB
             else vPrev i

/-- `terminal_clear` (terminal.c lines 140-156). -/
def terminal_clear (t : TermState) : TermState :=
  { logical_x := 0, screen_x := 0, screen_y := 0,
    video := clearCells t.video ((NUM_ROWS * NUM_COLS).toNat) }

/-! ## Terminal input buffer and blocking read (terminal.c) -/

/-- Modelled from the spec: `TERMINAL_BUF_SIZE`, the bounded capacity of the
per-terminal input ring buffer.  The header defining it is not among the
sources; the spec fixes only that the capacity is bounded, and the standard
value 128 is used here. -/
def TERMINAL_BUF_SIZE : Int := 128

/-- The `input_buf_t` portion of `terminal_state_t`: a fixed byte array
(modelled as a total function from index to byte value) plus the count of
valid bytes at the front. -/
structure InputBuf where
  data : Int → Nat
  count : Int

/-- The input-buffer effect of `handle_char_input` (terminal.c lines
289-301): backspace removes the last byte when the buffer is non-empty; any
other byte is appended when there is room, and dropped otherwise.  The echo
through `terminal_putc` touches only the screen state, not this buffer. -/
def handle_char_input (ib : InputBuf) (c : Nat) : InputBuf :=
  if c = 8 ∧ ib.count > 0 then
    { ib with count := ib.count - 1 }
  else if c ≠ 8 ∧ ib.count < TERMINAL_BUF_SIZE then
    { data := fun j => if j = ib.count then c else ib.data j,
      count := ib.count + 1 }
  else ib

/-- The newline-scanning loop of `wait_until_readable` (terminal.c lines
181-185): scan indices `i, i+1, ...` below `count` for the first byte equal
to `'\n'`.  `fuel` bounds the iteration count so the recursion is
structural; `count.toNat` steps always suffice. -/
def scanNlAux (data : Int → Nat) (count : Int) : Nat → Nat → Option Nat
  | 0, _ => none
  | fuel + 1, i =>
    if (i : Int) < count then
      if data i = 10 then some i else scanNlAux data count fuel (i + 1)
    else none

/-- Position of the first newline among the `count` valid bytes, as scanned
by the loop in `wait_until_readable`. -/
def findNewline (data : Int → Nat) (count : Int) : Option Nat :=
  scanNlAux data count count.toNat 0

/-- `wait_until_readable` (terminal.c lines 167-199).  Each `sti(); hlt();
cli()` wake is modelled by consuming the next batch of keyboard bytes from
`arrivals`, which enter the buffer through `handle_char_input` exactly as
keyboard interrupts deliver them.  The result is `none` when the arrivals
run out before the wait condition is met (the C code would halt forever),
and otherwise the returned byte count, the buffer state at return, and the
number of halts executed. -/
def wait_until_readable (ib : InputBuf) (nbytes : Int) :
    List (List Nat) → Option (Int × InputBuf × Nat)
  | [] =>
    if nbytes > ib.count then
      match findNewline ib.data ib.count with
      | some i => some ((i : Int) + 1, ib, 0)
      | none => none
    else some (nbytes, ib, 0)
  | batch :: rest =>
    if nbytes > ib.count then
      match findNewline ib.data ib.count with
      | some i => some ((i : Int) + 1, ib, 0)
      | none =>
        (wait_until_readable (batch.foldl handle_char_input ib) nbytes rest).map
          (fun r => (r.1, r.2.1, r.2.2 + 1))
    else some (nbytes, ib, 0)

/-- `terminal_read` (terminal.c lines 213-244).  Returns the value of `i`
at the `return` statement, the final input-buffer state (after the
`memmove` of `i` bytes and the `count -= i`), the bytes copied to the
caller's buffer, and the halt count from the wait.  `none` means the call
never returns (waits forever). -/
def terminal_read (ib : InputBuf) (nbytes0 : Int)
    (arrivals : List (List Nat)) : Option (Int × InputBuf × List Nat × Nat) :=
  let nbytes := if nbytes0 > TERMINAL_BUF_SIZE then TERMINAL_BUF_SIZE else nbytes0
  (wait_until_readable ib nbytes arrivals).map fun r =>
    let n := r.1
    let st := r.2.1
    let halts := r.2.2
    let i : Int := if n > 0 then n else 0
    let delivered := (List.range i.toNat).map fun k => st.data (Int.ofNat k)
    let dataAfter : Int → Nat :=
      fun j => if 0 ≤ j ∧ j < i then st.data (j + i) else st.data j
    (i, { data := dataAfter, count := st.count - i }, delivered, halts)

/-- Concrete input array whose first `l.length` bytes are the elements of
`l` (zero elsewhere). -/
def bufOfList (l : List Nat) : Int → Nat :=
  fun j => if 0 ≤ j then l.getD j.toNat 0 else 0

/-! ## Keyboard scancode decoder (keyboard.c) -/

/-- NUM_KEYS: each `keycode_map` row in keyboard.c holds 58 entries. -/
def NUM_KEYS : Nat := 58

/-- Modelled from the spec: the `kbd_modifiers_t` bit values (keyboard.h is
not among the sources).  One bit per modifier key, with `KMOD_CTRL`,
`KMOD_SHIFT` and `KMOD_ALT` the unions of their left/right variants, as the
consolidation in `get_modifiers` requires. -/
def KMOD_NONE : Nat := 0

/-- Left-Ctrl modifier bit (see `KMOD_NONE`). -/
def KMOD_LCTRL : Nat := 1

/-- Right-Ctrl modifier bit (see `KMOD_NONE`). -/
def KMOD_RCTRL : Nat := 2

/-- Left-Shift modifier bit (see `KMOD_NONE`). -/
def KMOD_LSHIFT : Nat := 4

/-- Right-Shift modifier bit (see `KMOD_NONE`). -/
def KMOD_RSHIFT : Nat := 8

/-- Left-Alt modifier bit (see `KMOD_NONE`). -/
def KMOD_LALT : Nat := 16

/-- Right-Alt modifier bit (see `KMOD_NONE`). -/
def KMOD_RALT : Nat := 32

/-- Caps-Lock toggle bit (see `KMOD_NONE`). -/
def KMOD_CAPS : Nat := 64

/-- Consolidated Ctrl mask. -/
def KMOD_CTRL : Nat := KMOD_LCTRL ||| KMOD_RCTRL

/-- Consolidated Shift mask. -/
def KMOD_SHIFT : Nat := KMOD_LSHIFT ||| KMOD_RSHIFT

/-- Consolidated Alt mask. -/
def KMOD_ALT : Nat := KMOD_LALT ||| KMOD_RALT

/-- Modelled from the spec: keycode constants (keyboard.h is not among the
sources; these are the standard scancode-set-1 values, consistent with the
`keycode_map` layout, e.g. `'l'` sits at index 0x26). -/
def KC_LCTRL : Nat := 0x1D

/-- Right-Ctrl keycode (extended; outside the printable table). -/
def KC_RCTRL : Nat := 0x61

/-- Left-Shift keycode. -/
def KC_LSHIFT : Nat := 0x2A

/-- Right-Shift keycode. -/
def KC_RSHIFT : Nat := 0x36

/-- Left-Alt keycode. -/
def KC_LALT : Nat := 0x38

/-- Right-Alt keycode (extended; outside the printable table). -/
def KC_RALT : Nat := 0x62

/-- Caps-Lock keycode. -/
def KC_CAPS_LOCK : Nat := 0x3A

/-- Keycode of the `'l'` key (Ctrl-L clears the screen). -/
def KC_L : Nat := 0x26

/-- `kbd_input_ctrl_t`: control sequences produced by the decoder. -/
inductive KbdInputCtrl where
  | KCTL_NONE
  | KCTL_CLEAR
  | KCTL_TERM1
  | KCTL_TERM2
  | KCTL_TERM3
deriving DecidableEq

/-- `kbd_input_t`: a decoded input event (the tagged union of keyboard.h). -/
inductive KbdInput where
  | KTYP_NONE
  | KTYP_CHAR (c : Char)
  | KTYP_CTRL (k : KbdInputCtrl)
deriving DecidableEq

/-- `keycode_map` (keyboard.c lines 11-47): the four translation tables
(neutral, Shift, Caps, Shift-and-Caps), each with `NUM_KEYS` entries. -/
def keycode_map : List (List Char) :=
  [ [ '\x00', '\x00', '1', '2', '3', '4', '5', '6', '7', '8', '9', '0', '-', '=',
      '\x08', '\t', 'q', 'w', 'e', 'r', 't', 'y', 'u', 'i', 'o', 'p', '[', ']',
      '\n', '\x00', 'a', 's', 'd', 'f', 'g', 'h', 'j', 'k', 'l', ';', '\'', '`',
      '\x00', '\\', 'z', 'x', 'c', 'v', 'b', 'n', 'm', ',', '.', '/', '\x00', '*',
      '\x00', ' ' ],
    [ '\x00', '\x00', '!', '@', '#', '$', '%', '^', '&', '*', '(', ')', '_', '+',
      '\x08', '\t', 'Q', 'W', 'E', 'R', 'T', 'Y', 'U', 'I', 'O', 'P', '\x7b', '\x7d',
      '\n', '\x00', 'A', 'S', 'D', 'F', 'G', 'H', 'J', 'K', 'L', ':', '\"', '~',
      '\x00', '|', 'Z', 'X', 'C', 'V', 'B', 'N', 'M', '<', '>', '?', '\x00', '*',
      '\x00', ' ' ],
    [ '\x00', '\x00', '1', '2', '3', '4', '5', '6', '7', '8', '9', '0', '-', '=',
      '\x08', '\t', 'Q', 'W', 'E', 'R', 'T', 'Y', 'U', 'I', 'O', 'P', '[', ']',
      '\n', '\x00', 'A', 'S', 'D', 'F', 'G', 'H', 'J', 'K', 'L', ';', '\'', '`',
      '\x00', '\\', 'Z', 'X', 'C', 'V', 'B', 'N', 'M', ',', '.', '/', '\x00', '*',
      '\x00', ' ' ],
    [ '\x00', '\x00', '!', '@', '#', '$', '%', '^', '&', '*', '(', ')', '_', '+',
      '\x08', '\t', 'q', 'w', 'e', 'r', 't', 'y', 'u', 'i', 'o', 'p', '\x7b', '\x7d',
      '\n', '\x00', 'a', 's', 'd', 'f', 'g', 'h', 'j', 'k', 'l', ':', '\"', '~',
      '\x00', '|', 'z', 'x', 'c', 'v', 'b', 'n', 'm', '<', '>', '?', '\x00', '*',
      '\x00', ' ' ] ]

/-- `set_modifier_bit` (keyboard.c lines 50-58).  The C `&= ~mask` on the
int holding the 7 defined modifier bits is taken within those 7 bits. -/
def set_modifier_bit (bit : Nat) (mask : Nat) (modifiers : Nat) : Nat :=
  if bit ≠ 0 then modifiers ||| mask
  else modifiers &&& (127 ^^^ mask)

/-- `toggle_modifier_bit` (keyboard.c lines 61-64). -/
def toggle_modifier_bit (mask : Nat) (modifiers : Nat) : Nat :=
  modifiers ^^^ mask

/-- `keycode_to_modifier` (keyboard.c lines 70-91). -/
def keycode_to_modifier (keycode : Nat) : Nat :=
  if keycode = KC_LCTRL then KMOD_LCTRL
  else if keycode = KC_RCTRL then KMOD_RCTRL
  else if keycode = KC_LSHIFT then KMOD_LSHIFT
  else if keycode = KC_RSHIFT then KMOD_RSHIFT
  else if keycode = KC_LALT then KMOD_LALT
  else if keycode = KC_RALT then KMOD_RALT
  else if keycode = KC_CAPS_LOCK then KMOD_CAPS
  else KMOD_NONE

/-- `keycode_to_ctrl` (keyboard.c lines 97-106). -/
def keycode_to_ctrl (keycode : Nat) : KbdInputCtrl :=
  if keycode = KC_L then .KCTL_CLEAR else .KCTL_NONE

/-- `get_modifiers` (keyboard.c lines 115-123): consolidate left/right
variants, sequentially as in the C code. -/
def get_modifiers (modifiers : Nat) : Nat :=
  let m1 := if modifiers &&& KMOD_CTRL ≠ 0 then modifiers ||| KMOD_CTRL else modifiers
  let m2 := if m1 &&& KMOD_SHIFT ≠ 0 then m1 ||| KMOD_SHIFT else m1
  let m3 := if m2 &&& KMOD_ALT ≠ 0 then m2 ||| KMOD_ALT else m2
  m3

/-- `keycode_to_input` (keyboard.c lines 129-169). -/
def keycode_to_input (keycode : Nat) (modifiers : Nat) : KbdInput :=
  if keycode ≥ NUM_KEYS then .KTYP_NONE
  else
    let gm := get_modifiers modifiers
    if gm = KMOD_NONE then .KTYP_CHAR ((keycode_map.getD 0 []).getD keycode '\x00')
    else if gm = KMOD_SHIFT then .KTYP_CHAR ((keycode_map.getD 1 []).getD keycode '\x00')
    else if gm = KMOD_CAPS then .KTYP_CHAR ((keycode_map.getD 2 []).getD keycode '\x00')
    else if gm = KMOD_CAPS ||| KMOD_SHIFT then
      .KTYP_CHAR ((keycode_map.getD 3 []).getD keycode '\x00')
    else if gm = KMOD_CTRL ∨ gm = KMOD_CAPS ||| KMOD_CTRL then
      .KTYP_CTRL (keycode_to_ctrl keycode)
    else .KTYP_NONE

/-- `process_packet` (keyboard.c lines 180-208): returns the decoded event
and the updated modifier state. -/
def process_packet (packet : Nat) (modifiers : Nat) : KbdInput × Nat :=
  let status : Nat := if packet &&& 128 = 0 then 1 else 0
  let keycode := packet &&& 127
  let m := keycode_to_modifier keycode
  if m ≠ KMOD_NONE then
    if m = KMOD_CAPS then
      if status = 1 then (.KTYP_NONE, toggle_modifier_bit m modifiers)
      else (.KTYP_NONE, modifiers)
    else (.KTYP_NONE, set_modifier_bit status m modifiers)
  else if status = 1 then (keycode_to_input keycode modifiers, modifiers)
  else (.KTYP_NONE, modifiers)

/-! ## Trap dispatcher (idt.c) -/

/-- NUM_EXC: number of exception vectors; the `exception_names` table in
idt.c has 20 entries and `idt_init` installs exception gates for vectors
`0 ≤ v < NUM_EXC`. -/
def NUM_EXC : Nat := 20

/-- EXC_DE: the divide-error exception is vector 0 (first entry of
`exception_names`). -/
def EXC_DE : Nat := 0

/-- Modelled from the spec: IRQ vector base (idt.h is not among the
sources; the 16 IRQ lines are remapped to vectors 0x20-0x2F). -/
def INT_IRQ0 : Nat := 0x20

/-- Modelled from the spec: last IRQ vector (see `INT_IRQ0`). -/
def INT_IRQ15 : Nat := 0x2F

/-- Modelled from the spec: the single designated syscall vector (idt.h is
not among the sources; the conventional value 0x80 is used). -/
def INT_SYSCALL : Nat := 0x80

/-- Modelled from the spec: the user code-segment selector (x86_desc.h is
not among the sources; the conventional value 0x23 is used — only its
being distinct from the kernel selector matters). -/
def USER_CS : Nat := 0x23

/-- Modelled from the spec: the kernel code-segment selector (see
`USER_CS`). -/
def KERNEL_CS : Nat := 0x10

/-- The signal kinds raised by `handle_user_exception` (signal.h). -/
inductive Signal where
  | SIG_DIV_ZERO
  | SIG_SEGFAULT
deriving DecidableEq

/-- `int_regs_t`: the register snapshot pushed by the trap entry stub. -/
structure IntRegs where
  int_num : Nat
  error_code : Nat
  eax : Nat
  ebx : Nat
  ecx : Nat
  edx : Nat
  esi : Nat
  edi : Nat
  ebp : Nat
  esp : Nat
  eip : Nat
  eflags : Nat
  cs : Nat
  ds : Nat
  es : Nat
  fs : Nat
  gs : Nat
  ss : Nat
  cr0 : Nat
  cr2 : Nat
  cr3 : Nat
  cr4 : Nat
deriving DecidableEq

/-- Observable effects of one dispatch, in program order. -/
inductive DispatchEvent where
  | raisedSignal (pid : Nat) (sig : Signal)
  | dumpedRegisters (regs : IntRegs)
  | irqDispatched (line : Nat)
  | syscallHandled
  | unknownLogged (vector : Nat)
  | drainedSignals
deriving DecidableEq

/-- Result of one dispatch: whether control returns to the interrupted
context, and the trace of effects. -/
structure DispatchResult where
  returns : Bool
  events : List DispatchEvent

/-- `handle_user_exception` (idt.c lines 74-84): raise `SIG_DIV_ZERO`
against the executing process for the divide-error vector, `SIG_SEGFAULT`
for every other exception vector.  `pid` is the executing process's id
(`get_executing_pcb()->pid`, external to this core). -/
def handle_user_exception (pid : Nat) (int_num : Nat) : List DispatchEvent :=
  if int_num = EXC_DE then [.raisedSignal pid .SIG_DIV_ZERO]
  else [.raisedSignal pid .SIG_SEGFAULT]

/-- `handle_exception` (idt.c lines 87-102): user-privilege snapshots are
converted to a signal and control returns; kernel-privilege snapshots get
a register dump and `loop()` — the function never returns. -/
def handle_exception (pid : Nat) (regs : IntRegs) : DispatchResult :=
  if regs.cs = USER_CS then
    { returns := true, events := handle_user_exception pid regs.int_num }
  else
    { returns := false, events := [.dumpedRegisters regs] }

/-- `idt_handle_interrupt` (idt.c lines 126-148): classify the vector,
run the matching handler, then — only if control got back here and the
snapshot is user-privilege — drain pending signals. -/
def idt_handle_interrupt (pid : Nat) (regs : IntRegs) : DispatchResult :=
  let r :=
    if regs.int_num < NUM_EXC then handle_exception pid regs
    else if INT_IRQ0 ≤ regs.int_num ∧ regs.int_num ≤ INT_IRQ15 then
      { returns := true, events := [.irqDispatched (regs.int_num - INT_IRQ0)] }
    else if regs.int_num = INT_SYSCALL then
      { returns := true, events := [.syscallHandled] }
    else
      { returns := true, events := [.unknownLogged regs.int_num] }
  if r.returns then
    if regs.cs = USER_CS then { r with events := r.events ++ [.drainedSignals] }
    else r
  else r

/-- Predicate picking the signal-raise events out of a trace. -/
def isRaisedSignal : DispatchEvent → Bool
  | .raisedSignal _ _ => true
  | _ => false

/-! ## IRQ handler registry (_projects/loliOS/student-distrib/idt.c) -/

/-- Observable effects of the IRQ registry: driver-callback invocations
(callbacks are identified by an id standing for the function pointer),
end-of-interrupt signals to the PIC, and line enable/disable commands. -/
inductive IrqEvent where
  | invokedCallback (cb : Nat)
  | sentEoi (line : Nat)
  | enabledIrq (line : Nat)
  | disabledIrq (line : Nat)
deriving DecidableEq

/-- `register_irq_handler` (_projects idt.c lines 131-137): store the
callback in the line's only slot (overwriting any prior registration) and
enable the physical line. -/
def register_irq_handler (handlers : Nat → Option Nat) (irq_num : Nat)
    (callback : Nat) : (Nat → Option Nat) × List IrqEvent :=
  (fun l => if l = irq_num then some callback else handlers l,
   [.enabledIrq irq_num])

/-- `unregister_irq_handler` (_projects idt.c lines 142-148): disable the
physical line, then clear the slot. -/
def unregister_irq_handler (handlers : Nat → Option Nat) (irq_num : Nat) :
    (Nat → Option Nat) × List IrqEvent :=
  (fun l => if l = irq_num then none else handlers l,
   [.disabledIrq irq_num])

/-- `handle_irq` (_projects idt.c lines 81-95): compute the line from the
vector, run the callback if one is registered, and unconditionally send
end-of-interrupt afterward. -/
def handle_irq (handlers : Nat → Option Nat) (int_num : Nat) :
    List IrqEvent :=
  let irq_num := int_num - INT_IRQ0
  match handlers irq_num with
  | some cb => [.invokedCallback cb, .sentEoi irq_num]
  | none => [.sentEoi irq_num]

/-! ## Terminal scroll behaviour (C7) -/

/-- The write loop of `terminal_write` (terminal.c lines 254-263): feed a
byte sequence through `terminal_putc`. -/
def putcSeq (t : TermState) (cs : List Nat) : TermState :=
  cs.foldl terminal_putc t

/-- One cell update as `terminal_write_char` performs it at row `y`,
column `x`. -/
def updCell (v : Int → Nat) (y x : Int) (c : Nat) : Int → Nat :=
  fun i => if i = (y * NUM_COLS + x) * 2 then c
           else if i = (y * NUM_COLS + x) * 2 + 1 then ATTRIB else v i

/-- Video contents after a run of plain characters written along row `y`
starting at column `x`. -/
def writeRowCells (v : Int → Nat) (y x : Int) : List Nat → (Int → Nat)
  | [] => v
  | c :: rest => writeRowCells (updCell v y x c) y (x + 1) rest

/-- Video contents after `k` consecutive full rows of 80 plain characters
written starting at row `y` (no scroll among them). -/
def writeRows (v : Int → Nat) (y : Int) : Nat → List Nat → (Int → Nat)
  | 0, _ => v
  | k + 1, cs =>
    writeRows (writeRowCells v y 0 (cs.take 80)) (y + 1) k (cs.drop 80)

/-! ## Theorems -/

/--
**C6.** For every terminal state whose `screen_x` lies in `[0, NUM_COLS)`
and whose `logical_x` is nonnegative, and every byte, `terminal_putc` and
`terminal_clear` preserve the cursor invariant: afterward `screen_x` is
still in `[0, NUM_COLS)` and `logical_x` is still nonnegative (including
the backspace case that wraps `screen_x` back up a row).
-/
theorem c6_cursor_invariant (t : TermState) (c : Nat)
    (hx0 : 0 ≤ t.screen_x) (hx1 : t.screen_x < NUM_COLS)
    (hl : 0 ≤ t.logical_x) :
    (0 ≤ (terminal_putc t c).screen_x ∧
     (terminal_putc t c).screen_x < NUM_COLS ∧
     0 ≤ (terminal_putc t c).logical_x) ∧
    (0 ≤ (terminal_clear t).screen_x ∧
     (terminal_clear t).screen_x < NUM_COLS ∧
     0 ≤ (terminal_clear t).logical_x) := by
  unfold terminal_putc terminal_clear terminal_write_char NUM_COLS at *
  constructor
  · split_ifs <;>
      simp_all only [apply_ite TermState.screen_x, apply_ite TermState.logical_x,
        NUM_ROWS, ATTRIB] <;>
      (try split_ifs) <;> (try simp_all) <;> omega
  · simp

/-- Witness for C6 at a concrete state and byte. -/
theorem c6_cursor_invariant_witness :
    (0 ≤ (⟨0, 0, 0, fun _ => 0⟩ : TermState).screen_x ∧
     (⟨0, 0, 0, fun _ => 0⟩ : TermState).screen_x < NUM_COLS ∧
     0 ≤ (⟨0, 0, 0, fun _ => 0⟩ : TermState).logical_x) ∧
    ((0 ≤ (terminal_putc ⟨0, 0, 0, fun _ => 0⟩ 65).screen_x ∧
      (terminal_putc ⟨0, 0, 0, fun _ => 0⟩ 65).screen_x < NUM_COLS ∧
      0 ≤ (terminal_putc ⟨0, 0, 0, fun _ => 0⟩ 65).logical_x) ∧
     (0 ≤ (terminal_clear ⟨0, 0, 0, fun _ => 0⟩).screen_x ∧
      (terminal_clear ⟨0, 0, 0, fun _ => 0⟩).screen_x < NUM_COLS ∧
      0 ≤ (terminal_clear ⟨0, 0, 0, fun _ => 0⟩).logical_x)) :=
  ⟨⟨by decide, by decide, by decide⟩,
   c6_cursor_invariant ⟨0, 0, 0, fun _ => 0⟩ 65
     (by decide) (by decide) (by decide)⟩

/-- A `some p` result of the scan loop is the first newline at or after the
start index among the valid bytes. -/
theorem scanNlAux_eq_some (data : Int → Nat) (count : Int) :
    ∀ (fuel i p : Nat), scanNlAux data count fuel i = some p →
      i ≤ p ∧ (p : Int) < count ∧ data p = 10 ∧
        ∀ k : Nat, i ≤ k → k < p → data k ≠ 10 := by
  intro fuel
  induction fuel with
  | zero => intro i p h; simp [scanNlAux] at h
  | succ n ih =>
    intro i p h
    simp only [scanNlAux] at h
    split at h
    · split at h
      · obtain rfl : i = p := by simpa using h
        refine ⟨le_refl i, by assumption, by assumption, ?_⟩
        intro k hk1 hk2
        omega
      · rcases ih (i + 1) p h with ⟨h1, h2, h3, h4⟩
        refine ⟨by omega, h2, h3, ?_⟩
        intro k hk1 hk2
        rcases Nat.eq_or_lt_of_le hk1 with rfl | hlt
        · assumption
        · exact h4 k (by omega) hk2
    · simp at h

/-- `findNewline` finds the position of the first newline. -/
theorem findNewline_eq_some {data : Int → Nat} {count : Int} {p : Nat}
    (h : findNewline data count = some p) :
    (p : Int) < count ∧ data p = 10 ∧ ∀ k : Nat, k < p → data k ≠ 10 := by
  rcases scanNlAux_eq_some data count count.toNat 0 p h with ⟨_, h2, h3, h4⟩
  exact ⟨h2, h3, fun k hk => h4 k (Nat.zero_le k) hk⟩

/-- When the wait loop's first scan finds a newline (the requested count
exceeds the buffered count), the wait returns immediately with the bytes up
to and including that newline. -/
theorem wait_eq_of_found (ib : InputBuf) (nbytes : Int) {p : Nat}
    (arrivals : List (List Nat)) (h1 : ib.count < nbytes)
    (hfn : findNewline ib.data ib.count = some p) :
    wait_until_readable ib nbytes arrivals = some ((p : Int) + 1, ib, 0) := by
  cases arrivals with
  | nil => simp only [wait_until_readable]; rw [if_pos (by omega), hfn]
  | cons batch rest => simp only [wait_until_readable]; rw [if_pos (by omega), hfn]

/-- When the buffer already holds the requested count, the wait returns it
immediately without scanning or halting. -/
theorem wait_eq_of_enough (ib : InputBuf) (nbytes : Int)
    (arrivals : List (List Nat)) (h : nbytes ≤ ib.count) :
    wait_until_readable ib nbytes arrivals = some (nbytes, ib, 0) := by
  cases arrivals with
  | nil => simp only [wait_until_readable]; rw [if_neg (by omega)]
  | cons batch rest => simp only [wait_until_readable]; rw [if_neg (by omega)]

/-- Evaluation of `terminal_read` once the wait's result is known and
positive. -/
theorem terminal_read_eval {ib : InputBuf} {nbytes n : Int} {st : InputBuf}
    {halts : Nat} {arrivals : List (List Nat)}
    (hcap : ¬nbytes > TERMINAL_BUF_SIZE)
    (hw : wait_until_readable ib nbytes arrivals = some (n, st, halts))
    (hn : 0 < n) :
    (terminal_read ib nbytes arrivals).map
        (fun r => (r.1, r.2.1.count, r.2.2.1, r.2.2.2)) =
      some (n, st.count - n,
            (List.range n.toNat).map (fun k => st.data (Int.ofNat k)), halts) := by
  simp only [terminal_read]
  rw [if_neg hcap, hw]
  simp only [Option.map_some']
  rw [if_pos hn]

/--
**C1 counterexample.** With buffer contents `"x\ny"` (count 3) and a
request of 3 bytes, the first newline sits at index 1, so the claim (read
returns the requested count or everything up to and including the first
newline, whichever comes first) requires delivering exactly 2 bytes.  The
code instead returns 3 bytes, crossing the newline: `wait_until_readable`
returns `nbytes` immediately whenever the buffer already holds at least
`nbytes` bytes and never scans for a newline in that case.
-/
theorem c1_read_newline_counterexample :
    findNewline (bufOfList [120, 10, 121]) 3 = some 1 ∧
    ((terminal_read ⟨bufOfList [120, 10, 121], 3⟩ 3 []).map
        (fun r => (r.1, r.2.2.1)) = some (3, [120, 10, 121])) ∧
    (3 : Int) ≠ 1 + 1 := by
  refine ⟨by decide, by decide, by decide⟩

/--
**C1 (amended).** The newline rule applies only while the buffer holds
fewer bytes than requested: (a) if the requested count exceeds the buffered
count and the buffer's first newline is at index `p`, the read delivers
exactly the `p + 1` bytes up to and including that newline, decrementing
the stored count accordingly, without halting; (b) if the buffer already
holds at least the (positive) requested count, the read delivers exactly
the requested count even if a newline appears earlier; (c) in particular,
when an empty buffer receives 2 bytes and then a newline during a read of
5, the read returns exactly those 3 bytes and the buffer count is 0
afterward.
-/
theorem c1_read_amended :
    (∀ (ib : InputBuf) (nbytes : Int) (p : Nat) (arrivals : List (List Nat)),
        0 ≤ ib.count → ib.count < nbytes → nbytes ≤ TERMINAL_BUF_SIZE →
        findNewline ib.data ib.count = some p →
        ((terminal_read ib nbytes arrivals).map
            (fun r => (r.1, r.2.1.count, r.2.2.1, r.2.2.2)) =
          some ((p : Int) + 1, ib.count - ((p : Int) + 1),
                (List.range (p + 1)).map (fun k => ib.data (Int.ofNat k)), 0)) ∧
        ib.data (p : Int) = 10 ∧
        ∀ k : Nat, k < p → ib.data (Int.ofNat k) ≠ 10) ∧
    (∀ (ib : InputBuf) (nbytes : Int) (arrivals : List (List Nat)),
        0 < nbytes → nbytes ≤ ib.count → nbytes ≤ TERMINAL_BUF_SIZE →
        (terminal_read ib nbytes arrivals).map
            (fun r => (r.1, r.2.1.count, r.2.2.1, r.2.2.2)) =
          some (nbytes, ib.count - nbytes,
                (List.range nbytes.toNat).map (fun k => ib.data (Int.ofNat k)),
                0)) ∧
    ((terminal_read ⟨bufOfList [], 0⟩ 5 [[104], [105], [10]]).map
        (fun r => (r.1, r.2.1.count, r.2.2.1, r.2.2.2)) =
      some (3, 0, [104, 105, 10], 3)) := by
  refine ⟨?_, ?_, by decide⟩
  · intro ib nbytes p arrivals h0 h1 h2 hfn
    obtain ⟨hp1, hp2, hp3⟩ := findNewline_eq_some hfn
    refine ⟨?_, hp2, fun k hk => hp3 k hk⟩
    have hw := wait_eq_of_found ib nbytes arrivals h1 hfn
    have := terminal_read_eval (by omega) hw (by omega)
    rw [this]
    have hcast : ((p : Int) + 1).toNat = p + 1 := by omega
    rw [hcast]
  · intro ib nbytes arrivals h0 h1 h2
    have hw := wait_eq_of_enough ib nbytes arrivals h1
    exact terminal_read_eval (by omega) hw h0

/-- Witness for the amended C1 at a concrete buffer: contents `"h\nxy"`
(count 4), request 5; the first newline is at index 1 and the read delivers
the 2 bytes up to and including it. -/
theorem c1_read_amended_witness :
    (0 ≤ (⟨bufOfList [104, 10, 120, 121], 4⟩ : InputBuf).count ∧
     (⟨bufOfList [104, 10, 120, 121], 4⟩ : InputBuf).count < 5 ∧
     (5 : Int) ≤ TERMINAL_BUF_SIZE ∧
     findNewline (bufOfList [104, 10, 120, 121]) 4 = some 1) ∧
    ((terminal_read ⟨bufOfList [104, 10, 120, 121], 4⟩ 5 []).map
        (fun r => (r.1, r.2.1.count, r.2.2.1, r.2.2.2)) =
      some ((((1 : Nat) : Int)) + 1,
            (⟨bufOfList [104, 10, 120, 121], 4⟩ : InputBuf).count -
              (((1 : Nat) : Int) + 1),
            (List.range (1 + 1)).map
              (fun k => bufOfList [104, 10, 120, 121] (Int.ofNat k)), 0)) := by
  refine ⟨⟨by decide, by decide, by decide, by decide⟩, ?_⟩
  exact (c1_read_amended.1 ⟨bufOfList [104, 10, 120, 121], 4⟩ 5 1 []
    (by decide) (by decide) (by decide) (by decide)).1

/--
**C2 (evaluation at the failing input).** With buffer `"abcde"` (count 5)
and a request of 2 bytes, the read delivers `"ab"`, returns 2 and leaves
count 3 — but the `memmove` in `terminal_read` moves `i` bytes instead of
the `count - i` remaining bytes (contradicting its own comment "Shift
remaining characters to the front of the buffer"), so the third remaining
byte is left as the stale `'c'` (99) instead of `'e'` (101): the buffer
afterward reads `"cdc"`, not `"cde"`.
-/
theorem c2_shift_bug :
    ((terminal_read ⟨bufOfList [97, 98, 99, 100, 101], 5⟩ 2 []).map
        (fun r => (r.1, r.2.1.count, r.2.1.data 0, r.2.1.data 1,
                   r.2.1.data 2, r.2.2.1)) =
      some (2, 3, 99, 100, 99, [97, 98])) ∧
    bufOfList [97, 98, 99, 100, 101] (2 + 2) = 101 ∧ (99 : Nat) ≠ 101 := by
  refine ⟨by rfl, by rfl, by decide⟩

/--
**C10.** For every buffer state (with its nonnegative count invariant) and
every `nbytes ≤ 0`, `terminal_read` returns 0 immediately: it executes no
`sti/hlt` wait iteration (halt count 0) and leaves the input buffer's
contents and stored count unchanged.
-/
theorem c10_read_nonpositive (ib : InputBuf) (nbytes : Int)
    (arrivals : List (List Nat)) (h1 : nbytes ≤ 0) (h2 : 0 ≤ ib.count) :
    terminal_read ib nbytes arrivals = some (0, ib, [], 0) := by
  have hw := wait_eq_of_enough ib nbytes arrivals (by omega)
  simp only [terminal_read]
  rw [if_neg (by simp only [TERMINAL_BUF_SIZE]; omega), hw]
  simp only [Option.map_some']
  have hi : (if nbytes > 0 then nbytes else 0) = 0 := by rw [if_neg (by omega)]
  rw [hi]
  simp only [Option.some.injEq, Prod.mk.injEq]
  refine ⟨trivial, ?_, by simp, trivial⟩
  obtain ⟨d, c⟩ := ib
  simp only [InputBuf.mk.injEq]
  constructor
  · funext j
    rw [if_neg (by omega)]
  · omega

/-- Witness for C10 at a concrete state: a buffer with 2 valid bytes and a
request of -1 bytes. -/
theorem c10_read_nonpositive_witness :
    ((-1 : Int) ≤ 0 ∧ 0 ≤ (⟨bufOfList [104, 105], 2⟩ : InputBuf).count) ∧
    terminal_read ⟨bufOfList [104, 105], 2⟩ (-1) [[10]] =
      some (0, ⟨bufOfList [104, 105], 2⟩, [], 0) :=
  ⟨⟨by decide, by decide⟩,
   c10_read_nonpositive ⟨bufOfList [104, 105], 2⟩ (-1) [[10]]
     (by decide) (by decide)⟩

/--
**C8 counterexample.** From the prior modifier state in which Left-Shift is
already set (state 4 = `KMOD_LSHIFT`), a Left-Shift press packet (0x2A)
followed by a Left-Shift release packet (0xAA) leaves the state 0, not the
prior value 4: the release clears the bit regardless of whether it was set
before the press.
-/
theorem c8_modifier_counterexample :
    (process_packet 0xAA (process_packet 0x2A KMOD_LSHIFT).2).2 = 0 ∧
    (0 : Nat) ≠ KMOD_LSHIFT := by decide

/--
**C8 (amended).** For every prior 7-bit modifier state in which Left-Shift
is not already set, processing a Left-Shift press packet followed by a
Left-Shift release packet returns the modifier state to exactly its value
before the press.
-/
theorem c8_modifier_roundtrip_amended :
    ∀ m : Nat, m < 128 → m &&& KMOD_LSHIFT = 0 →
      (process_packet 0xAA (process_packet 0x2A m).2).2 = m := by decide

/-- Witness for the amended C8 at the state with Caps toggled and
Right-Ctrl held. -/
theorem c8_modifier_roundtrip_amended_witness :
    ((KMOD_CAPS ||| KMOD_RCTRL) < 128 ∧
     (KMOD_CAPS ||| KMOD_RCTRL) &&& KMOD_LSHIFT = 0) ∧
    (process_packet 0xAA
        (process_packet 0x2A (KMOD_CAPS ||| KMOD_RCTRL)).2).2 =
      KMOD_CAPS ||| KMOD_RCTRL :=
  ⟨⟨by decide, by decide⟩,
   c8_modifier_roundtrip_amended (KMOD_CAPS ||| KMOD_RCTRL)
     (by decide) (by decide)⟩

/--
**C9.** Decoding the press packet 0x1E (keycode of `'a'`) yields `'a'`
with no modifiers, `'A'` with Shift held (either side), `'A'` with Caps
toggled on, and `'a'` with both Caps on and Shift held; decoding the
release packet 0x9E yields a no-op (`KTYP_NONE`) event, and changes no
state, in every modifier state.
-/
theorem c9_decode_a :
    (process_packet 0x1E KMOD_NONE).1 = .KTYP_CHAR 'a' ∧
    (process_packet 0x1E KMOD_LSHIFT).1 = .KTYP_CHAR 'A' ∧
    (process_packet 0x1E KMOD_RSHIFT).1 = .KTYP_CHAR 'A' ∧
    (process_packet 0x1E KMOD_CAPS).1 = .KTYP_CHAR 'A' ∧
    (process_packet 0x1E (KMOD_CAPS ||| KMOD_LSHIFT)).1 = .KTYP_CHAR 'a' ∧
    ∀ m : Nat, process_packet 0x9E m = (.KTYP_NONE, m) :=
  ⟨by decide, by decide, by decide, by decide, by decide, fun m => rfl⟩

/--
**C3.** For every exception vector (`int_num < NUM_EXC`) with a register
snapshot whose code segment is the user code segment, dispatch returns,
and exactly one signal is raised against the executing process:
`SIG_DIV_ZERO` when the vector is the divide-error exception and
`SIG_SEGFAULT` for every other exception vector.
-/
theorem c3_user_exception_signals (pid : Nat) (regs : IntRegs)
    (hexc : regs.int_num < NUM_EXC) (hcs : regs.cs = USER_CS) :
    (idt_handle_interrupt pid regs).returns = true ∧
    ((idt_handle_interrupt pid regs).events.filter isRaisedSignal =
      [.raisedSignal pid
        (if regs.int_num = EXC_DE then .SIG_DIV_ZERO else .SIG_SEGFAULT)]) := by
  unfold idt_handle_interrupt handle_exception handle_user_exception
  simp only [if_pos hexc, if_pos hcs]
  refine ⟨?_, ?_⟩ <;> split <;> (try split) <;> simp [isRaisedSignal]

/-- Witness for C3: a divide-error trap from user mode. -/
theorem c3_user_exception_signals_witness :
    ((⟨0, 0, 0, 0, 0, 0, 0, 0, 0, 0, 0, 0, USER_CS, 0, 0, 0, 0, 0, 0, 0, 0,
       0⟩ : IntRegs).int_num < NUM_EXC ∧
     (⟨0, 0, 0, 0, 0, 0, 0, 0, 0, 0, 0, 0, USER_CS, 0, 0, 0, 0, 0, 0, 0, 0,
       0⟩ : IntRegs).cs = USER_CS) ∧
    ((idt_handle_interrupt 7
        ⟨0, 0, 0, 0, 0, 0, 0, 0, 0, 0, 0, 0, USER_CS, 0, 0, 0, 0, 0, 0, 0, 0,
         0⟩).returns = true ∧
     ((idt_handle_interrupt 7
         ⟨0, 0, 0, 0, 0, 0, 0, 0, 0, 0, 0, 0, USER_CS, 0, 0, 0, 0, 0, 0, 0, 0,
          0⟩).events.filter isRaisedSignal =
       [.raisedSignal 7
         (if (⟨0, 0, 0, 0, 0, 0, 0, 0, 0, 0, 0, 0, USER_CS, 0, 0, 0, 0, 0, 0,
              0, 0, 0⟩ : IntRegs).int_num = EXC_DE then .SIG_DIV_ZERO
          else .SIG_SEGFAULT)])) :=
  ⟨⟨by decide, rfl⟩,
   c3_user_exception_signals 7
     ⟨0, 0, 0, 0, 0, 0, 0, 0, 0, 0, 0, 0, USER_CS, 0, 0, 0, 0, 0, 0, 0, 0, 0⟩
     (by decide) rfl⟩

/--
**C4.** For every exception vector (`int_num < NUM_EXC`) with a register
snapshot whose code segment is not the user code segment, dispatch dumps
the register snapshot and never returns (the system halts permanently);
no signal is raised.
-/
theorem c4_kernel_exception_halts (pid : Nat) (regs : IntRegs)
    (hexc : regs.int_num < NUM_EXC) (hcs : regs.cs ≠ USER_CS) :
    (idt_handle_interrupt pid regs).returns = false ∧
    (idt_handle_interrupt pid regs).events = [.dumpedRegisters regs] ∧
    (idt_handle_interrupt pid regs).events.filter isRaisedSignal = [] := by
  unfold idt_handle_interrupt handle_exception
  rw [if_pos hexc, if_neg hcs]
  simp [isRaisedSignal]

/-- Witness for C4: a page-fault trap (vector 14) from kernel mode. -/
theorem c4_kernel_exception_halts_witness :
    ((⟨14, 0, 0, 0, 0, 0, 0, 0, 0, 0, 0, 0, KERNEL_CS, 0, 0, 0, 0, 0, 0, 0,
       0, 0⟩ : IntRegs).int_num < NUM_EXC ∧
     (⟨14, 0, 0, 0, 0, 0, 0, 0, 0, 0, 0, 0, KERNEL_CS, 0, 0, 0, 0, 0, 0, 0,
       0, 0⟩ : IntRegs).cs ≠ USER_CS) ∧
    ((idt_handle_interrupt 7
        ⟨14, 0, 0, 0, 0, 0, 0, 0, 0, 0, 0, 0, KERNEL_CS, 0, 0, 0, 0, 0, 0, 0,
         0, 0⟩).returns = false ∧
     (idt_handle_interrupt 7
        ⟨14, 0, 0, 0, 0, 0, 0, 0, 0, 0, 0, 0, KERNEL_CS, 0, 0, 0, 0, 0, 0, 0,
         0, 0⟩).events =
       [.dumpedRegisters
         ⟨14, 0, 0, 0, 0, 0, 0, 0, 0, 0, 0, 0, KERNEL_CS, 0, 0, 0, 0, 0, 0, 0,
          0, 0⟩] ∧
     (idt_handle_interrupt 7
        ⟨14, 0, 0, 0, 0, 0, 0, 0, 0, 0, 0, 0, KERNEL_CS, 0, 0, 0, 0, 0, 0, 0,
         0, 0⟩).events.filter isRaisedSignal = []) :=
  ⟨⟨by decide, by decide⟩,
   c4_kernel_exception_halts 7
     ⟨14, 0, 0, 0, 0, 0, 0, 0, 0, 0, 0, 0, KERNEL_CS, 0, 0, 0, 0, 0, 0, 0, 0,
      0⟩ (by decide) (by decide)⟩

/--
**C5.** For every IRQ line in `[0,16)`: dispatching that line's vector
after `register_irq_handler(line, cb)` produces exactly the trace
"invoke `cb`, then send one end-of-interrupt" (so `cb` runs exactly once
and the EOI follows the callback's return); dispatching after
`unregister_irq_handler(line)` — from any registry state — invokes no
callback but still sends exactly one end-of-interrupt.
-/
theorem c5_irq_registry_dispatch (handlers : Nat → Option Nat)
    (line cb : Nat) (h : line < 16) :
    (handle_irq (register_irq_handler handlers line cb).1 (INT_IRQ0 + line) =
      [.invokedCallback cb, .sentEoi line]) ∧
    (∀ handlers2 : Nat → Option Nat,
      handle_irq (unregister_irq_handler handlers2 line).1 (INT_IRQ0 + line) =
        [.sentEoi line]) := by
  have hl : INT_IRQ0 + line - INT_IRQ0 = line := by omega
  constructor
  · simp [handle_irq, register_irq_handler, hl]
  · intro handlers2
    simp [handle_irq, unregister_irq_handler, hl]

/-- Witness for C5 on the keyboard line (IRQ 1), from the empty registry
for the register half and a fully-populated registry for the unregister
half. -/
theorem c5_irq_registry_dispatch_witness :
    (1 < 16) ∧
    (handle_irq (register_irq_handler (fun _ => none) 1 42).1
        (INT_IRQ0 + 1) = [.invokedCallback 42, .sentEoi 1]) ∧
    (handle_irq (unregister_irq_handler (fun _ => some 5) 1).1
        (INT_IRQ0 + 1) = [.sentEoi 1]) :=
  ⟨by decide,
   (c5_irq_registry_dispatch (fun _ => none) 1 42 (by decide)).1,
   (c5_irq_registry_dispatch (fun _ => none) 1 42 (by decide)).2
     (fun _ => some 5)⟩

theorem putcSeq_nil (t : TermState) : putcSeq t [] = t := rfl

theorem putcSeq_cons (t : TermState) (c : Nat) (cs : List Nat) :
    putcSeq t (c :: cs) = putcSeq (terminal_putc t c) cs := rfl

theorem putcSeq_append (t : TermState) (a b : List Nat) :
    putcSeq t (a ++ b) = putcSeq (putcSeq t a) b :=
  List.foldl_append terminal_putc t a b

/-- A plain byte at a non-last column advances the cursor one column and
writes one cell. -/
theorem putc_plain_step (t : TermState) (c : Nat)
    (hc1 : c ≠ 10) (hc2 : c ≠ 13) (hc3 : c ≠ 8)
    (hx : t.screen_x + 1 < NUM_COLS) (hy : t.screen_y < NUM_ROWS) :
    terminal_putc t c =
      { logical_x := t.logical_x + 1, screen_x := t.screen_x + 1,
        screen_y := t.screen_y,
        video := updCell t.video t.screen_y t.screen_x c } := by
  simp only [terminal_putc, terminal_write_char]
  rw [if_neg (by simp [hc1, hc2]), if_neg hc3]
  simp only [if_neg (show ¬NUM_COLS ≤ t.screen_x + 1 by omega),
             if_neg (show ¬NUM_ROWS ≤ t.screen_y by omega)]
  rfl

/-- A plain byte at the last column of a non-bottom row wraps the cursor to
the start of the next row. -/
theorem putc_plain_wrap (t : TermState) (c : Nat)
    (hc1 : c ≠ 10) (hc2 : c ≠ 13) (hc3 : c ≠ 8)
    (hx : t.screen_x = NUM_COLS - 1) (hy : t.screen_y + 1 < NUM_ROWS) :
    terminal_putc t c =
      { logical_x := t.logical_x + 1, screen_x := 0,
        screen_y := t.screen_y + 1,
        video := updCell t.video t.screen_y t.screen_x c } := by
  simp only [terminal_putc, terminal_write_char]
  rw [if_neg (by simp [hc1, hc2]), if_neg hc3]
  simp only [if_pos (show NUM_COLS ≤ t.screen_x + 1 by omega),
             if_neg (show ¬NUM_ROWS ≤ t.screen_y + 1 by omega)]
  rw [show t.screen_x + 1 - NUM_COLS = 0 by omega]
  rfl

/-- A plain byte at the last column of the bottom row wraps, scrolls, and
leaves the cursor at the start of the bottom row. -/
theorem putc_plain_wrap_scroll (t : TermState) (c : Nat)
    (hc1 : c ≠ 10) (hc2 : c ≠ 13) (hc3 : c ≠ 8)
    (hx : t.screen_x = NUM_COLS - 1) (hy : t.screen_y = NUM_ROWS - 1) :
    terminal_putc t c =
      { logical_x := t.logical_x + 1, screen_x := 0,
        screen_y := NUM_ROWS - 1,
        video := terminal_scroll_down
          (updCell t.video t.screen_y t.screen_x c) } := by
  simp only [terminal_putc, terminal_write_char]
  rw [if_neg (by simp [hc1, hc2]), if_neg hc3]
  simp only [if_pos (show NUM_COLS ≤ t.screen_x + 1 by omega),
             if_pos (show NUM_ROWS ≤ t.screen_y + 1 by omega)]
  rw [show t.screen_x + 1 - NUM_COLS = 0 by omega,
      show t.screen_y + 1 - 1 = NUM_ROWS - 1 by omega]
  rfl

/-- Writing plain characters up to the end of a non-bottom row leaves the
cursor at the start of the next row and the characters in their cells. -/
theorem putcSeq_fill_row :
    ∀ (cs : List Nat) (t : TermState),
      (∀ c ∈ cs, c ≠ 10 ∧ c ≠ 13 ∧ c ≠ 8) →
      0 ≤ t.screen_x → t.screen_x < NUM_COLS →
      t.screen_x + cs.length = NUM_COLS →
      t.screen_y + 1 < NUM_ROWS →
      putcSeq t cs =
        { logical_x := t.logical_x + cs.length, screen_x := 0,
          screen_y := t.screen_y + 1,
          video := writeRowCells t.video t.screen_y t.screen_x cs } := by
  intro cs
  induction cs with
  | nil =>
    intro t hplain hx0 hx1 hlen hy
    simp only [List.length_nil, Nat.cast_zero, add_zero] at hlen
    exfalso
    omega
  | cons c rest ih =>
    intro t hplain hx0 hx1 hlen hy
    obtain ⟨hc1, hc2, hc3⟩ := hplain c (List.mem_cons_self c rest)
    rw [putcSeq_cons]
    cases rest with
    | nil =>
      have hx79 : t.screen_x = NUM_COLS - 1 := by
        simp only [List.length_cons, List.length_nil] at hlen
        push_cast at hlen
        omega
      rw [putcSeq_nil, putc_plain_wrap t c hc1 hc2 hc3 hx79 hy]
      simp only [writeRowCells, List.length_cons, List.length_nil,
        TermState.mk.injEq, and_true, true_and]
      push_cast
      ring
    | cons c2 rest2 =>
      have hx' : t.screen_x + 1 < NUM_COLS := by
        simp only [List.length_cons] at hlen
        push_cast at hlen
        omega
      rw [putc_plain_step t c hc1 hc2 hc3 hx' (by omega)]
      rw [ih { logical_x := t.logical_x + 1, screen_x := t.screen_x + 1,
               screen_y := t.screen_y,
               video := updCell t.video t.screen_y t.screen_x c }
          (fun d hd => hplain d (List.mem_cons_of_mem c hd))
          (by show 0 ≤ t.screen_x + 1; omega)
          (by show t.screen_x + 1 < NUM_COLS; omega)
          (by show t.screen_x + 1 + ((c2 :: rest2).length : Int) = NUM_COLS
              simp only [List.length_cons] at hlen ⊢
              push_cast at hlen ⊢
              omega)
          (by show t.screen_y + 1 < NUM_ROWS; omega)]
      simp only [writeRowCells, List.length_cons, TermState.mk.injEq,
        and_true, true_and]
      push_cast
      ring

/-- Writing plain characters up to the end of the bottom row scrolls once
and leaves the cursor at the start of the (still bottom) row. -/
theorem putcSeq_fill_last_row :
    ∀ (cs : List Nat) (t : TermState),
      (∀ c ∈ cs, c ≠ 10 ∧ c ≠ 13 ∧ c ≠ 8) →
      0 ≤ t.screen_x → t.screen_x < NUM_COLS →
      t.screen_x + cs.length = NUM_COLS →
      t.screen_y = NUM_ROWS - 1 →
      putcSeq t cs =
        { logical_x := t.logical_x + cs.length, screen_x := 0,
          screen_y := NUM_ROWS - 1,
          video := terminal_scroll_down
            (writeRowCells t.video t.screen_y t.screen_x cs) } := by
  intro cs
  induction cs with
  | nil =>
    intro t hplain hx0 hx1 hlen hy
    simp only [List.length_nil, Nat.cast_zero, add_zero] at hlen
    exfalso
    omega
  | cons c rest ih =>
    intro t hplain hx0 hx1 hlen hy
    obtain ⟨hc1, hc2, hc3⟩ := hplain c (List.mem_cons_self c rest)
    rw [putcSeq_cons]
    cases rest with
    | nil =>
      have hx79 : t.screen_x = NUM_COLS - 1 := by
        simp only [List.length_cons, List.length_nil] at hlen
        push_cast at hlen
        omega
      rw [putcSeq_nil, putc_plain_wrap_scroll t c hc1 hc2 hc3 hx79 hy]
      simp only [writeRowCells, List.length_cons, List.length_nil,
        TermState.mk.injEq, and_true, true_and]
      push_cast
      ring
    | cons c2 rest2 =>
      have hx' : t.screen_x + 1 < NUM_COLS := by
        simp only [List.length_cons] at hlen
        push_cast at hlen
        omega
      rw [putc_plain_step t c hc1 hc2 hc3 hx' (by omega)]
      rw [ih { logical_x := t.logical_x + 1, screen_x := t.screen_x + 1,
               screen_y := t.screen_y,
               video := updCell t.video t.screen_y t.screen_x c }
          (fun d hd => hplain d (List.mem_cons_of_mem c hd))
          (by show 0 ≤ t.screen_x + 1; omega)
          (by show t.screen_x + 1 < NUM_COLS; omega)
          (by show t.screen_x + 1 + ((c2 :: rest2).length : Int) = NUM_COLS
              simp only [List.length_cons] at hlen ⊢
              push_cast at hlen ⊢
              omega)
          (by show t.screen_y = NUM_ROWS - 1; omega)]
      simp only [writeRowCells, List.length_cons, TermState.mk.injEq,
        and_true, true_and]
      push_cast
      ring

/-- `writeRowCells` leaves every byte strictly before its first cell
unchanged. -/
theorem writeRowCells_lt :
    ∀ (cs : List Nat) (v : Int → Nat) (y x j : Int),
      j < (y * NUM_COLS + x) * 2 → writeRowCells v y x cs j = v j := by
  intro cs
  induction cs with
  | nil => intro v y x j h; rfl
  | cons c rest ih =>
    intro v y x j h
    simp only [writeRowCells]
    rw [ih (updCell v y x c) y (x + 1) j (by omega)]
    simp only [updCell]
    rw [if_neg (by omega), if_neg (by omega)]

/-- The character byte written by `writeRowCells` at offset `k` into the
run is the `k`-th character of the run. -/
theorem writeRowCells_at :
    ∀ (cs : List Nat) (v : Int → Nat) (y x : Int) (k : Nat),
      k < cs.length →
      writeRowCells v y x cs ((y * NUM_COLS + x + (k : Int)) * 2) =
        cs.getD k 0 := by
  intro cs
  induction cs with
  | nil => intro v y x k h; simp at h
  | cons c rest ih =>
    intro v y x k h
    simp only [writeRowCells]
    cases k with
    | zero =>
      rw [writeRowCells_lt rest (updCell v y x c) y (x + 1)
            ((y * NUM_COLS + x + ((0 : Nat) : Int)) * 2) (by push_cast; omega)]
      simp [updCell]
    | succ k2 =>
      have : (y * NUM_COLS + x + ((k2 + 1 : Nat) : Int)) * 2 =
          (y * NUM_COLS + (x + 1) + ((k2 : Nat) : Int)) * 2 := by
        push_cast; ring
      rw [this, ih (updCell v y x c) y (x + 1) k2 (by simpa using h)]
      rfl

/-- `writeRows` leaves every byte strictly before its first row
unchanged. -/
theorem writeRows_lt :
    ∀ (k : Nat) (v : Int → Nat) (y : Int) (cs : List Nat) (j : Int),
      j < y * 160 → writeRows v y k cs j = v j := by
  intro k
  induction k with
  | zero => intro v y cs j h; rfl
  | succ k2 ih =>
    intro v y cs j h
    simp only [writeRows]
    rw [ih _ (y + 1) _ j (by omega)]
    exact writeRowCells_lt _ v y 0 j (by simp only [NUM_COLS]; omega)

/-- The character byte `writeRows` leaves in row `y + j`, column `i`, is
character `80 * j + i` of the sequence. -/
theorem writeRows_at :
    ∀ (k : Nat) (v : Int → Nat) (y : Int) (cs : List Nat) (j i : Nat),
      j < k → i < 80 → cs.length = 80 * k →
      writeRows v y k cs (((y + (j : Int)) * NUM_COLS + (i : Int)) * 2) =
        cs.getD (80 * j + i) 0 := by
  intro k
  induction k with
  | zero => intro v y cs j i hj hi hlen; exact absurd hj (Nat.not_lt_zero j)
  | succ k2 ih =>
    intro v y cs j i hj hi hlen
    simp only [writeRows]
    cases j with
    | zero =>
      have hidx : (((y + ((0 : Nat) : Int)) * NUM_COLS + (i : Int)) * 2) <
          (y + 1) * 160 := by
        simp only [NUM_COLS]
        push_cast
        omega
      rw [writeRows_lt k2 _ (y + 1) _ _ hidx]
      have htake : i < (cs.take 80).length := by
        simp only [List.length_take]
        omega
      have hidx2 : ((y + ((0 : Nat) : Int)) * NUM_COLS + (i : Int)) * 2 =
          (y * NUM_COLS + 0 + (i : Int)) * 2 := by push_cast; ring
      rw [hidx2, writeRowCells_at (cs.take 80) v y 0 i htake]
      simp only [List.getD_eq_getElem?_getD, List.getElem?_take, if_pos hi]
      norm_num
    | succ j2 =>
      have hidx : ((y + ((j2 + 1 : Nat) : Int)) * NUM_COLS + (i : Int)) * 2 =
          (((y + 1) + (j2 : Nat)) * NUM_COLS + (i : Int)) * 2 := by
        push_cast; ring
      rw [hidx, ih _ (y + 1) (cs.drop 80) j2 i (by omega) hi
            (by simp only [List.length_drop]; omega)]
      simp only [List.getD_eq_getElem?_getD, List.getElem?_drop]
      rw [show 80 + (80 * j2 + i) = 80 * (j2 + 1) + i from by omega]

/-- Writing `80 * k` plain characters from the start of row `y`, with `k`
more rows available below, fills `k` rows and moves the cursor to the start
of row `y + k` without scrolling. -/
theorem putcSeq_rows :
    ∀ (k : Nat) (t : TermState) (cs : List Nat),
      (∀ c ∈ cs, c ≠ 10 ∧ c ≠ 13 ∧ c ≠ 8) →
      cs.length = 80 * k → t.screen_x = 0 →
      t.screen_y + (k : Int) < NUM_ROWS →
      putcSeq t cs =
        { logical_x := t.logical_x + cs.length, screen_x := 0,
          screen_y := t.screen_y + (k : Int),
          video := writeRows t.video t.screen_y k cs } := by
  intro k
  induction k with
  | zero =>
    intro t cs hplain hlen hx hy
    obtain rfl : cs = [] := List.length_eq_zero.mp (by omega)
    obtain ⟨lx, sx, sy, v⟩ := t
    simp only [putcSeq_nil, writeRows, List.length_nil, Nat.cast_zero,
      add_zero] at hx ⊢
    simp [hx]
  | succ k2 ih =>
    intro t cs hplain hlen hx hy
    have hyy : t.screen_y + 1 + (k2 : Int) < NUM_ROWS := by
      push_cast at hy
      omega
    have e1 := putcSeq_fill_row (cs.take 80) t
      (fun d hd => hplain d (List.take_subset 80 cs hd))
      (by omega) (by simp only [NUM_COLS]; omega)
      (by simp only [List.length_take, NUM_COLS]
          push_cast
          omega)
      (by omega)
    have e2 := ih
      { logical_x := t.logical_x + ((cs.take 80).length : Int), screen_x := 0,
        screen_y := t.screen_y + 1,
        video := writeRowCells t.video t.screen_y t.screen_x (cs.take 80) }
      (cs.drop 80)
      (fun d hd => hplain d (List.drop_subset 80 cs hd))
      (by simp only [List.length_drop]; omega)
      rfl
      hyy
    have hlt : (cs.take 80).length = 80 := by
      simp only [List.length_take]
      omega
    have hld : (cs.drop 80).length = 80 * k2 := by
      simp only [List.length_drop]
      omega
    have hsplit : putcSeq t cs = putcSeq (putcSeq t (cs.take 80)) (cs.drop 80) := by
      rw [← putcSeq_append, List.take_append_drop]
    rw [hsplit, e1, e2]
    simp only [TermState.mk.injEq, true_and, and_true]
    refine ⟨?_, by push_cast; ring, ?_⟩
    · rw [hlt, hld, hlen]
      push_cast
      ring
    · rw [hx]
      simp only [writeRows]

/-- Core of C7, for any start state with the cursor at the top-left:
writing 2001 plain characters leaves characters 80..159 of the sequence in
the first row's cells and the cursor on the bottom row. -/
theorem putcSeq_full_screen_plus_one (T : TermState) (cs : List Nat)
    (hx : T.screen_x = 0) (hy : T.screen_y = 0)
    (hlen : cs.length = 2001)
    (hplain : ∀ c ∈ cs, c ≠ 10 ∧ c ≠ 13 ∧ c ≠ 8) :
    (∀ i : Nat, i < 80 →
      (putcSeq T cs).video (2 * (i : Int)) = cs.getD (80 + i) 0) ∧
    (putcSeq T cs).screen_y = NUM_ROWS - 1 := by
  obtain ⟨lx, sx, sy, v⟩ := T
  simp only at hx hy
  subst hx hy
  have e1 := putcSeq_rows 24 ⟨lx, 0, 0, v⟩ (cs.take 1920)
    (fun d hd => hplain d (List.take_subset 1920 cs hd))
    (by simp only [List.length_take]; omega)
    rfl
    (by show (0 : Int) + ((24 : Nat) : Int) < NUM_ROWS
        simp only [NUM_ROWS]
        norm_num)
  have e2 := putcSeq_fill_last_row ((cs.drop 1920).take 80)
    { logical_x := lx + ((cs.take 1920).length : Int), screen_x := 0,
      screen_y := (0 : Int) + ((24 : Nat) : Int),
      video := writeRows v 0 24 (cs.take 1920) }
    (fun d hd => hplain d
      (List.drop_subset 1920 cs (List.take_subset 80 (cs.drop 1920) hd)))
    (by norm_num)
    (by show (0 : Int) < NUM_COLS; simp only [NUM_COLS]; norm_num)
    (by show (0 : Int) + (((cs.drop 1920).take 80).length : Int) = NUM_COLS
        simp only [List.length_take, List.length_drop, NUM_COLS]
        push_cast
        omega)
    (by show (0 : Int) + ((24 : Nat) : Int) = NUM_ROWS - 1
        simp only [NUM_ROWS]
        norm_num)
  obtain ⟨cl, hcl⟩ := List.length_eq_one.mp
    (show (cs.drop 2000).length = 1 by simp only [List.length_drop]; omega)
  have hclmem : cl ∈ cs := by
    have : cl ∈ cs.drop 2000 := by rw [hcl]; exact List.mem_singleton_self cl
    exact List.drop_subset 2000 cs this
  obtain ⟨hcl1, hcl2, hcl3⟩ := hplain cl hclmem
  have s1 : putcSeq (⟨lx, 0, 0, v⟩ : TermState) cs =
      putcSeq (putcSeq ⟨lx, 0, 0, v⟩ (cs.take 1920)) (cs.drop 1920) := by
    rw [← putcSeq_append, List.take_append_drop]
  have hdd : (cs.drop 1920).drop 80 = cs.drop 2000 := by
    rw [List.drop_drop]
  have s2 : ∀ u : TermState, putcSeq u (cs.drop 1920) =
      putcSeq (putcSeq u ((cs.drop 1920).take 80)) (cs.drop 2000) := by
    intro u
    rw [← putcSeq_append, ← hdd, List.take_append_drop]
  have e3 := putc_plain_step
    { logical_x := (lx + ((cs.take 1920).length : Int)) +
        (((cs.drop 1920).take 80).length : Int),
      screen_x := 0, screen_y := NUM_ROWS - 1,
      video := terminal_scroll_down
        (writeRowCells (writeRows v 0 24 (cs.take 1920))
          ((0 : Int) + ((24 : Nat) : Int)) 0 ((cs.drop 1920).take 80)) }
    cl hcl1 hcl2 hcl3
    (by show (0 : Int) + 1 < NUM_COLS; simp only [NUM_COLS]; norm_num)
    (by show NUM_ROWS - 1 < NUM_ROWS; omega)
  have hfinal : putcSeq (⟨lx, 0, 0, v⟩ : TermState) cs =
      { logical_x := ((lx + ((cs.take 1920).length : Int)) +
          (((cs.drop 1920).take 80).length : Int)) + 1,
        screen_x := (0 : Int) + 1, screen_y := NUM_ROWS - 1,
        video := updCell
          (terminal_scroll_down
            (writeRowCells (writeRows v 0 24 (cs.take 1920))
              ((0 : Int) + ((24 : Nat) : Int)) 0 ((cs.drop 1920).take 80)))
          (NUM_ROWS - 1) 0 cl } := by
    rw [s1, e1, s2, e2, hcl, putcSeq_cons, putcSeq_nil, e3]
  rw [hfinal]
  constructor
  · intro i hi
    show updCell
        (terminal_scroll_down
          (writeRowCells (writeRows v 0 24 (cs.take 1920))
            ((0 : Int) + ((24 : Nat) : Int)) 0 ((cs.drop 1920).take 80)))
        (NUM_ROWS - 1) 0 cl (2 * (i : Int)) = cs.getD (80 + i) 0
    simp only [updCell]
    rw [if_neg (by simp only [NUM_ROWS, NUM_COLS]; omega),
        if_neg (by simp only [NUM_ROWS, NUM_COLS]; omega)]
    simp only [terminal_scroll_down]
    rw [if_pos (⟨by omega, by simp only [NUM_COLS, NUM_ROWS]; omega⟩ :
          (0 : Int) ≤ 2 * (i : Int) ∧
          2 * (i : Int) < NUM_COLS * NUM_ROWS * 2 - NUM_COLS * 2)]
    rw [writeRowCells_lt ((cs.drop 1920).take 80) _
          ((0 : Int) + ((24 : Nat) : Int)) 0 (2 * (i : Int) + NUM_COLS * 2)
          (by simp only [NUM_COLS]; push_cast; omega)]
    rw [show (2 * (i : Int) + NUM_COLS * 2) =
          (((0 : Int) + ((1 : Nat) : Int)) * NUM_COLS + (i : Int)) * 2 from by
        simp only [NUM_COLS]; push_cast; ring]
    rw [writeRows_at 24 v 0 (cs.take 1920) 1 i (by norm_num) hi
          (by simp only [List.length_take]; omega)]
    simp only [List.getD_eq_getElem?_getD, List.getElem?_take]
    rw [if_pos (show 80 * 1 + i < 1920 by omega),
        show 80 * 1 + i = 80 + i from by omega]
  · rfl

/--
**C7.** Starting from a cleared terminal (cursor at the top-left), writing
exactly `NUM_ROWS * NUM_COLS + 1` plain (non-newline, non-carriage-return,
non-backspace) characters via `terminal_putc` leaves the first screen
row's cell contents equal to what the second row contained before the
scroll — characters 80..159 of the sequence — and leaves the cursor on the
last screen row.
-/
theorem c7_scroll_first_row (t0 : TermState) (cs : List Nat)
    (hlen : (cs.length : Int) = NUM_ROWS * NUM_COLS + 1)
    (hplain : ∀ c ∈ cs, c ≠ 10 ∧ c ≠ 13 ∧ c ≠ 8) :
    (∀ i : Nat, i < 80 →
      (putcSeq (terminal_clear t0) cs).video (2 * (i : Int)) =
        cs.getD (80 + i) 0) ∧
    (putcSeq (terminal_clear t0) cs).screen_y = NUM_ROWS - 1 :=
  putcSeq_full_screen_plus_one (terminal_clear t0) cs rfl rfl
    (by simp only [NUM_ROWS, NUM_COLS] at hlen; omega) hplain

/-- Witness for C7: the sequence of 2001 `'x'` bytes. -/
theorem c7_scroll_first_row_witness :
    (((List.replicate 2001 120).length : Int) = NUM_ROWS * NUM_COLS + 1 ∧
     (∀ c ∈ List.replicate 2001 120, c ≠ 10 ∧ c ≠ 13 ∧ c ≠ 8)) ∧
    ((∀ i : Nat, i < 80 →
       (putcSeq (terminal_clear ⟨0, 0, 0, fun _ => 0⟩)
           (List.replicate 2001 120)).video (2 * (i : Int)) =
         (List.replicate 2001 120).getD (80 + i) 0) ∧
     (putcSeq (terminal_clear ⟨0, 0, 0, fun _ => 0⟩)
         (List.replicate 2001 120)).screen_y = NUM_ROWS - 1) :=
  ⟨⟨by rw [List.length_replicate]; norm_num [NUM_ROWS, NUM_COLS],
    fun c hc => by
      rw [List.eq_of_mem_replicate hc]
      refine ⟨by decide, by decide, by decide⟩⟩,
   c7_scroll_first_row ⟨0, 0, 0, fun _ => 0⟩ (List.replicate 2001 120)
     (by rw [List.length_replicate]; norm_num [NUM_ROWS, NUM_COLS])
     (fun c hc => by
       rw [List.eq_of_mem_replicate hc]
       refine ⟨by decide, by decide, by decide⟩)⟩

end LoliOS

